import Mathlib

/-!
Shallow embedding of the qtils size-limited container and hex codec
(`SizeLimitedContainer` / `SLVector`, `fmt::formatter<qtils::Hex>`,
`qtils::unhex` / `qtils::unhex0x`), together with theorems settling the
specification claims about them.

Bytes are modelled as `Nat` with the `uint8_t` domain made explicit via
`% 256` where the code relies on it; text as `List Char`; fallible
operations as `Except`-valued functions; a C++ member function that may
throw is modelled as a function returning the outcome paired with the
post-state of the object (a throw happens before any mutation in every
translated function, so the post-state on error is whatever the code left
behind at the throw point).
-/

namespace Qtils

/-- Formatting options of `fmt::formatter<qtils::Hex>` (file `part_023`):
`show0x` models the member `prefix` (emit a literal "0x"), `full` the
member `full` (full vs abbreviated rendering), `lower` the member `lower`
(lowercase vs uppercase hex digits).  Defaults in the source are
`prefix = false`, `full = false`, `lower = true`. -/
structure HexFmt where
  show0x : Bool
  full : Bool
  lower : Bool
deriving DecidableEq, Repr

/-- One hex digit, lowercase or uppercase, for a nibble value `n < 16`.
Mirrors what fmt's `{:02x}` / `{:02X}` produce per nibble. -/
def nibbleChar (lower : Bool) (n : Nat) : Char :=
  if n < 10 then Char.ofNat ('0'.toNat + n)
  else if lower then Char.ofNat ('a'.toNat + (n - 10))
  else Char.ofNat ('A'.toNat + (n - 10))

/-- Two hex digits of one byte, as produced by `format_to(out, "{:02x}", byte)`
in the formatter's `write_bytes` lambda.  The byte is a `uint8_t`, made
explicit by `% 256`. -/
def byteToHex (lower : Bool) (b : Nat) : List Char :=
  [nibbleChar lower (b % 256 / 16), nibbleChar lower (b % 256 % 16)]

/-- The formatter's `write_bytes` loop: every byte as two hex digits. -/
def writeBytes (lower : Bool) : List Nat → List Char
  | [] => []
  | b :: rest => byteToHex lower b ++ writeBytes lower rest

/-- `fmt::formatter<qtils::Hex>::format` from `part_023`:
empty input renders as `"0x"` (with prefix) or `"<empty>"`; otherwise the
optional `"0x"` prefix followed by either the full hex digits (when
`full` or `size < kHead + kTail + kSmall = 5`) or the first two and last
two bytes joined by the source's ellipsis literal.  That literal in
`part_023` is the bytes `c3 a2 e2 82 ac c2 a6` — the double-encoded
`"â€¦"`, three characters, not a single U+2026 — and the ByteVec
formatting test asserts exactly those bytes in the output. -/
def formatHex (o : HexFmt) (span : List Nat) : List Char :=
  if span = [] then
    (if o.show0x then "0x" else "<empty>").toList
  else
    (if o.show0x then "0x".toList else []) ++
      (if o.full || span.length < 2 + 2 + 1 then
        writeBytes o.lower span
      else
        writeBytes o.lower (span.take 2) ++
          'â' :: '€' :: '¦' :: writeBytes o.lower (span.drop (span.length - 2)))

/-- Stage of `fmt::formatter<qtils::Hex>::parse` (file `part_023`) after a
first `'x'`/`'X'` has been consumed (`lo` is the `lower` flag it set,
`p` the prefix flag): an optional same-case second letter sets `full`,
then the iterator must be at the end of the spec, else the parse errors. -/
def parseAfterX (p lo : Bool) : List Char → Option HexFmt
  | [] => some ⟨p, false, lo⟩
  | c2 :: rest2 =>
    if (c2 = 'x' ∧ lo = true) ∨ (c2 = 'X' ∧ lo = false) then
      if rest2 = [] then some ⟨p, true, lo⟩ else none
    else none

/-- Stage of `parse` after the optional leading `'0'` (prefix flag `p`):
an optional `'x'`/`'X'` selects the case, else the iterator must already
be at the end of the spec. -/
def parseAfter0 (p : Bool) : List Char → Option HexFmt
  | [] => some ⟨p, false, true⟩
  | c :: rest =>
    if c = 'x' then parseAfterX p true rest
    else if c = 'X' then parseAfterX p false rest
    else none

/-- `fmt::formatter<qtils::Hex>::parse` from `part_023`, on the format-spec
token (the characters strictly before the closing brace).  `none` models
the `report_error` / `throw format_error` branch, raised while parsing
the format string, not while rendering. -/
def parseHexFmt : List Char → Option HexFmt
  | [] => some ⟨false, false, true⟩
  | c :: rest =>
    if c = '0' then parseAfter0 true rest
    else parseAfter0 false (c :: rest)

/-- The ten format-spec tokens accepted by `parseHexFmt`. -/
def hexFmtTokens : List (List Char) :=
  [[], ['x'], ['x', 'x'], ['X'], ['X', 'X'],
    ['0'], ['0', 'x'], ['0', 'x', 'x'], ['0', 'X'], ['0', 'X', 'X']]

/-- `UnhexError` from `unhex.hpp` (the revision declaring `MAX_UNHEX_SIZE`). -/
inductive UnhexError where
  | UNEXPECTED_0X
  | REQUIRED_0X
  | ODD_LENGTH
  | TOO_SHORT
  | TOO_LONG
  | FIXED_SIZE_TOO_LONG
  | NON_HEX
deriving DecidableEq, Repr

/-- `MAX_UNHEX_SIZE`: maximum supported size for unhexed input, in bytes. -/
def MAX_UNHEX_SIZE : Nat := 64 * 1024 * 1024

/-- `s.starts_with("0x")`. -/
def starts0x : List Char → Bool
  | c1 :: c2 :: _ => c1 = '0' && c2 = 'x'
  | _ => false

/-- `boost::algorithm::detail::hex_char_to_int`: value of one hex digit,
`none` models the `non_hex_input` throw. -/
def hexVal (c : Char) : Option Nat :=
  if '0' ≤ c ∧ c ≤ '9' then some (c.toNat - '0'.toNat)
  else if 'a' ≤ c ∧ c ≤ 'f' then some (c.toNat - 'a'.toNat + 10)
  else if 'A' ≤ c ∧ c ≤ 'F' then some (c.toNat - 'A'.toNat + 10)
  else none

/-- Outcome of `boost::algorithm::unhex` over the input characters:
either every pair decoded, or a non-hex character was hit after the bytes
in `written` had already been emitted through the output iterator. -/
inductive ScanResult where
  | complete (bytes : List Nat)
  | badChar (written : List Nat)
deriving DecidableEq, Repr

/-- `boost::algorithm::unhex` on the character sequence: decodes two hex
digits per byte, writing each completed byte before reading on; the first
non-hex character aborts with the bytes written so far (the byte of a
half-decoded pair is never written).  The singleton case cannot be reached
from `unhexDyn` / `unhexFixed`, which reject odd-length input first. -/
def hexScan : List Char → ScanResult
  | [] => .complete []
  | [_] => .badChar []
  | c1 :: c2 :: rest =>
    match hexVal c1 with
    | none => .badChar []
    | some hi =>
      match hexVal c2 with
      | none => .badChar []
      | some lo =>
        match hexScan rest with
        | .complete bs => .complete ((16 * hi + lo) :: bs)
        | .badChar bs => .badChar ((16 * hi + lo) :: bs)

/-- `std::vector<uint8_t>::resize(n)`: keep the first `n` elements, pad
with value-initialized (zero) bytes. -/
def resizeList (t : List Nat) (n : Nat) : List Nat :=
  t.take n ++ List.replicate (n - t.length) 0

/-- Sequential writes through `t.begin()`: the emitted bytes overwrite the
front of the buffer, the rest keeps its previous contents. -/
def writeOver (w buf : List Nat) : List Nat :=
  w ++ buf.drop w.length

/-- `qtils::unhex(t, s, max_size)` (revision with `MAX_UNHEX_SIZE`),
`constexpr` branch for a resizable destination (`t.resize` exists):
reject a "0x" prefix, then odd length, then a decoded count above
`max_size`; then resize `t` and let boost decode into it.  Result is the
outcome paired with the final state of `t`; the `std::bad_alloc` catch is
not modelled (allocation always succeeds here). -/
def unhexDyn (t : List Nat) (s : List Char) (max_size : Nat) :
    Except UnhexError Unit × List Nat :=
  if starts0x s then (.error .UNEXPECTED_0X, t)
  else if s.length % 2 ≠ 0 then (.error .ODD_LENGTH, t)
  else
    -- count = unhexSize(s) = s.size() / 2 (s cannot start with "0x" here)
    let count := s.length / 2
    if count > max_size then (.error .FIXED_SIZE_TOO_LONG, t)
    else
      let t1 := resizeList t count
      match hexScan s with
      | .complete bs => (.ok (), writeOver bs t1)
      | .badChar bs => (.error .NON_HEX, writeOver bs t1)

/-- `qtils::unhex(t, s, max_size)`, `constexpr` branch for a fixed-size
destination (no `resize`): after the prefix and parity checks the decoded
count must equal `t.size()` exactly, else `TOO_SHORT` / `TOO_LONG`; then
boost decodes into `t` in place. -/
def unhexFixed (t : List Nat) (s : List Char) :
    Except UnhexError Unit × List Nat :=
  if starts0x s then (.error .UNEXPECTED_0X, t)
  else if s.length % 2 ≠ 0 then (.error .ODD_LENGTH, t)
  else
    let count := s.length / 2
    if count < t.length then (.error .TOO_SHORT, t)
    else if count > t.length then (.error .TOO_LONG, t)
    else
      match hexScan s with
      | .complete bs => (.ok (), writeOver bs t)
      | .badChar bs => (.error .NON_HEX, writeOver bs t)

/-- `qtils::unhex0x(t, s, optional_0x)` over a resizable destination:
strip a present "0x" prefix, else fail with `REQUIRED_0X` unless the
prefix is optional, and delegate to `unhex`. -/
def unhex0xDyn (t : List Nat) (s : List Char) (optional_0x : Bool)
    (max_size : Nat) : Except UnhexError Unit × List Nat :=
  if starts0x s then unhexDyn t (s.drop 2) max_size
  else if !optional_0x then (.error .REQUIRED_0X, t)
  else unhexDyn t s max_size

/-!
`qtils::SizeLimitedContainer<Base, MaxSize>` (`SLVector`) from `part_019`,
in the `size_check_is_enabled` instantiation (`MaxSize` below the
`size_type` maximum — the capacity-enforced case every claim is about).
The object's contents are a `List α`; `M` is `MaxSize`.  Each mutator is
the translation of the member: the capacity check comes first and throws
`MaxSizeException` (modelled as the `error` outcome, paired with the
untouched prior state, since the check precedes any call into the base
container); otherwise the base `std::vector` primitive runs.  Constructors
yield `Except` alone: on throw no object exists.  `capacityError` stands
for the thrown `MaxSizeException`; the claims inspect only its kind, not
the formatted message. -/

inductive CapacityError where
  | maxSizeExceeded
deriving DecidableEq, Repr

/-- `SizeLimitedContainer(size_t size)`: `Base(size)` default-constructs
`size` elements (`d` is the default-constructed value). -/
def ctorSized {α : Type} (M n : Nat) (d : α) : Except CapacityError (List α) :=
  if n > M then .error .maxSizeExceeded else .ok (List.replicate n d)

/-- `SizeLimitedContainer(size_t size, const value_type &value)`. -/
def ctorSizedFill {α : Type} (M n : Nat) (v : α) :
    Except CapacityError (List α) :=
  if n > M then .error .maxSizeExceeded else .ok (List.replicate n v)

/-- `SizeLimitedContainer(const Base &)` / `(Base &&)` / the range and
initializer-list constructors: the source length is checked, then the
contents are taken verbatim (a failed move leaves its source intact —
the check precedes the transfer). -/
def ctorFrom {α : Type} (M : Nat) (src : List α) :
    Except CapacityError (List α) :=
  if src.length > M then .error .maxSizeExceeded else .ok src

/-- `operator=(const Base &)` / `(Base &&)` / `(initializer_list)` and
`assign(begin, end)` / `assign(initializer_list)`: replace the contents
by the source if it fits, else throw with the destination untouched. -/
def assignFrom {α : Type} (M : Nat) (st src : List α) :
    Except CapacityError Unit × List α :=
  if src.length > M then (.error .maxSizeExceeded, st) else (.ok (), src)

/-- `assign(size, value)`. -/
def assignSizeVal {α : Type} (M : Nat) (st : List α) (n : Nat) (v : α) :
    Except CapacityError Unit × List α :=
  if n > M then (.error .maxSizeExceeded, st)
  else (.ok (), List.replicate n v)

/-- `vector::insert` of one element before position `pos` (iterator
offset). -/
def insertAt {α : Type} (st : List α) (pos : Nat) (v : α) : List α :=
  st.take pos ++ v :: st.drop pos

/-- `push_back(value)`: full container (`size() >= max_size()`) throws,
else the element lands at the end. -/
def pushBack {α : Type} (M : Nat) (st : List α) (v : α) :
    Except CapacityError Unit × List α :=
  if st.length ≥ M then (.error .maxSizeExceeded, st)
  else (.ok (), st ++ [v])

/-- `emplace_back(args...)`: same check as `push_back`, the element being
constructed in place (`v` is the element the argument pack builds). -/
def emplaceBack {α : Type} (M : Nat) (st : List α) (v : α) :
    Except CapacityError Unit × List α :=
  if st.length ≥ M then (.error .maxSizeExceeded, st)
  else (.ok (), st ++ [v])

/-- Single-element `insert(pos, value)`: full-container check, then the
element lands at `pos`. -/
def insertOne {α : Type} (M : Nat) (st : List α) (pos : Nat) (v : α) :
    Except CapacityError Unit × List α :=
  if st.length ≥ M then (.error .maxSizeExceeded, st)
  else (.ok (), insertAt st pos v)

/-- `emplace(pos, args...)`: same check as single-element `insert`, the
element being constructed in place. -/
def emplaceAt {α : Type} (M : Nat) (st : List α) (pos : Nat) (v : α) :
    Except CapacityError Unit × List α :=
  if st.length ≥ M then (.error .maxSizeExceeded, st)
  else (.ok (), insertAt st pos v)

/-- `insert(pos, size, value)`: throws iff `max_size() - size() < size`
(the subtraction is on unsigned `size_type`; under the container
invariant `size() <= max_size()` it never wraps, and `Nat` subtraction
agrees with it there). -/
def insertCount {α : Type} (M : Nat) (st : List α) (pos n : Nat) (v : α) :
    Except CapacityError Unit × List α :=
  if M - st.length < n then (.error .maxSizeExceeded, st)
  else (.ok (), st.take pos ++ List.replicate n v ++ st.drop pos)

/-- `insert(pos, begin, end)` / `insert(pos, initializer_list)`: same
available-room check against the range's length. -/
def insertRange {α : Type} (M : Nat) (st : List α) (pos : Nat)
    (src : List α) : Except CapacityError Unit × List α :=
  if M - st.length < src.length then (.error .maxSizeExceeded, st)
  else (.ok (), st.take pos ++ src ++ st.drop pos)

/-- `reserve(size)`: rejects `size > max_size()`; never changes the
logical contents. -/
def reserveOp {α : Type} (M : Nat) (st : List α) (n : Nat) :
    Except CapacityError Unit × List α :=
  if n > M then (.error .maxSizeExceeded, st) else (.ok (), st)

/-- `resize(size)` / `resize(size, value)`: rejects `size > max_size()`;
else truncates or pads with `v` (the default-constructed value for the
one-argument overload) to exactly `n` elements. -/
def resizeOp {α : Type} (M : Nat) (st : List α) (n : Nat) (v : α) :
    Except CapacityError Unit × List α :=
  if n > M then (.error .maxSizeExceeded, st)
  else (.ok (), st.take n ++ List.replicate (n - st.length) v)

/-- Per-mutator correctness kernel used by the invariant claim: a failed
call leaves the object in its prior state `st`, a successful call leaves
the length within the limit `M`. -/
def opOk {α : Type} (M : Nat) (st : List α)
    (r : Except CapacityError Unit × List α) : Prop :=
  (r.1 = .error .maxSizeExceeded → r.2 = st) ∧
  (r.1 = .ok () → r.2.length ≤ M)

/-! ### Helper lemmas -/

theorem length_insertAt {α : Type} (st : List α) (pos : Nat) (v : α) :
    (insertAt st pos v).length = st.length + 1 := by
  simp [insertAt]
  omega

theorem writeBytes_length (lo : Bool) (bs : List Nat) :
    (writeBytes lo bs).length = 2 * bs.length := by
  induction bs with
  | nil => rfl
  | cons b r ih =>
    simp [writeBytes, byteToHex, ih]
    omega

theorem nibbleChar_ne_x (lo : Bool) (n : Nat) (h : n < 16) :
    nibbleChar lo n ≠ 'x' := by
  revert h
  revert n
  have : ∀ lo : Bool, ∀ n < 16, nibbleChar lo n ≠ 'x' := by decide
  exact this lo

theorem hexVal_nibbleChar (lo : Bool) (n : Nat) (h : n < 16) :
    hexVal (nibbleChar lo n) = some n := by
  revert h
  revert n
  have : ∀ lo : Bool, ∀ n < 16, hexVal (nibbleChar lo n) = some n := by decide
  exact this lo

theorem starts0x_writeBytes (lo : Bool) (b : Nat) (bs : List Nat) :
    starts0x (writeBytes lo (b :: bs)) = false := by
  have h2 : nibbleChar lo (b % 256 % 16) ≠ 'x' :=
    nibbleChar_ne_x lo _ (Nat.mod_lt _ (by norm_num))
  simp [writeBytes, byteToHex, starts0x, h2]

theorem hexScan_writeBytes (lo : Bool) (B : List Nat)
    (h : ∀ b ∈ B, b < 256) : hexScan (writeBytes lo B) = .complete B := by
  induction B with
  | nil => rfl
  | cons b r ih =>
    have hb : b < 256 := h b (by simp)
    have hmod : b % 256 = b := Nat.mod_eq_of_lt hb
    have ihr : hexScan (writeBytes lo r) = .complete r :=
      ih (fun x hx => h x (by simp [hx]))
    have e1 : hexVal (nibbleChar lo (b / 16)) = some (b / 16) :=
      hexVal_nibbleChar lo _ (by omega)
    have e2 : hexVal (nibbleChar lo (b % 16)) = some (b % 16) :=
      hexVal_nibbleChar lo _ (Nat.mod_lt _ (by norm_num))
    have hb' : 16 * (b / 16) + b % 16 = b := by omega
    simp only [writeBytes, byteToHex, hmod, List.cons_append, List.nil_append,
      List.append_eq, hexScan, e1, e2, ihr, hb']

theorem formatHex_full_eq (o : HexFmt) (B : List Nat) (hp : o.show0x = false)
    (hf : o.full = true) (hne : B ≠ []) :
    formatHex o B = writeBytes o.lower B := by
  simp [formatHex, hne, hp, hf]

/-! ### Claim theorems -/

/-- C5 counterexample: encoding `[0x01, 0x02, 0x00, 0x0a, 0x0b]` with
options abbreviated, lowercase, no prefix does not produce the text
`"0102…0a0b"` with a single ellipsis character — the formatter's join is
the double-encoded three-character literal `"â€¦"`, so the output differs
from the claimed text. -/
theorem C5_counterexample :
    formatHex ⟨false, false, true⟩ [1, 2, 0, 10, 11] ≠ "0102…0a0b".toList := by
  decide

/-- C5 (amended): encoding the 5-byte sequence `[0x01, 0x02, 0x00, 0x0a,
0x0b]` with options abbreviated, lowercase, no prefix produces exactly
the text `"0102â€¦0a0b"`: the first two bytes, the formatter's
double-encoded ellipsis literal `"â€¦"` (three characters), the last two
bytes. -/
theorem C5_encode_five_bytes_abbreviated :
    formatHex ⟨false, false, true⟩ [1, 2, 0, 10, 11] = "0102â€¦0a0b".toList := by
  decide

/-- C6: for every choice of case and abbreviation options, encoding the
empty byte sequence produces the literal `"<empty>"` without prefix and
`"0x"` with prefix, and never the empty string. -/
theorem C6_empty_rendering (o : HexFmt) :
    formatHex o [] = (if o.show0x then "0x" else "<empty>").toList ∧
      formatHex o [] ≠ [] := by
  rcases o with ⟨p, f, l⟩
  cases p <;> refine ⟨rfl, ?_⟩ <;> simp [formatHex]

/-- C4 counterexample: the claim says every sequence of length at or below
5 is rendered in full under abbreviated options (every byte as two hex
digits, no ellipsis marker); but the encoder abbreviates exactly at
length 5 — the output for a 5-byte input differs from the full
two-digits-per-byte rendering and contains the abbreviation marker (whose
first character is `'â'` of the double-encoded ellipsis literal). -/
theorem C4_counterexample :
    formatHex ⟨false, false, true⟩ [1, 2, 0, 10, 11] ≠
        writeBytes true [1, 2, 0, 10, 11] ∧
      'â' ∈ formatHex ⟨false, false, true⟩ [1, 2, 0, 10, 11] := by
  decide

/-- C4 (amended): with abbreviation enabled, sequences of length strictly
below the threshold `kHead + kTail + kSmall = 5` are rendered in full;
sequences of length 5 or more are abbreviated to the first two bytes, the
formatter's double-encoded ellipsis literal `"â€¦"` (three characters),
and the last two bytes. -/
theorem C4_abbreviation_threshold (o : HexFmt) (bytes : List Nat)
    (hf : o.full = false) (hne : bytes ≠ []) :
    (bytes.length < 5 →
      formatHex o bytes =
        (if o.show0x then "0x".toList else []) ++ writeBytes o.lower bytes) ∧
    (5 ≤ bytes.length →
      formatHex o bytes =
        (if o.show0x then "0x".toList else []) ++
          (writeBytes o.lower (bytes.take 2) ++
            'â' :: '€' :: '¦' ::
              writeBytes o.lower (bytes.drop (bytes.length - 2)))) := by
  constructor <;> intro h
  · simp [formatHex, hne, hf, h]
  · have h5 : ¬ bytes.length < 2 + 2 + 1 := by omega
    simp [formatHex, hne, hf, h5]

/-- C4 witness: a 3-byte input is rendered in full, a 5-byte input is
abbreviated with the double-encoded ellipsis literal as the join. -/
theorem C4_abbreviation_threshold_witness :
    formatHex ⟨false, false, true⟩ [1, 2, 3] = "010203".toList ∧
      formatHex ⟨false, false, true⟩ [1, 2, 3, 4, 5] = "0102â€¦0405".toList := by
  have h1 := (C4_abbreviation_threshold ⟨false, false, true⟩ [1, 2, 3] rfl
    (by decide)).1 (by decide)
  have h2 := (C4_abbreviation_threshold ⟨false, false, true⟩ [1, 2, 3, 4, 5] rfl
    (by decide)).2 (by decide)
  exact ⟨by rw [h1]; decide, by rw [h2]; decide⟩

/-- C2 counterexample: decoding the string `"zz"` into an empty resizable
destination returns the non-hex-character error, yet the destination is
not left in its prior state — it has been resized (to one zero byte)
before the character scan ran. -/
theorem C2_counterexample :
    (unhexDyn [] ['z', 'z'] MAX_UNHEX_SIZE).1 = .error .NON_HEX ∧
      (unhexDyn [] ['z', 'z'] MAX_UNHEX_SIZE).2 ≠ [] := by
  exact ⟨rfl, by decide⟩

/-- C2 (amended): if `unhex` (resizable or fixed destination) or
`unhex0x` fails with any validation error other than the
non-hex-character error, the destination keeps its prior size and
contents; on the non-hex-character error the destination may instead
retain the resize and the bytes decoded before the offending
character. -/
theorem C2_error_state_preserved (t : List Nat) (s : List Char) (m : Nat)
    (b : Bool) (e : UnhexError) (he : e ≠ .NON_HEX) :
    ((unhexDyn t s m).1 = .error e → (unhexDyn t s m).2 = t) ∧
    ((unhexFixed t s).1 = .error e → (unhexFixed t s).2 = t) ∧
    ((unhex0xDyn t s b m).1 = .error e → (unhex0xDyn t s b m).2 = t) := by
  have hdyn : ∀ (t' : List Nat) (s' : List Char),
      (unhexDyn t' s' m).1 = .error e → (unhexDyn t' s' m).2 = t' := by
    intro t' s' h
    by_cases h1 : starts0x s'
    · simp [unhexDyn, h1]
    · by_cases h2 : s'.length % 2 ≠ 0
      · simp [unhexDyn, h1, h2]
      · by_cases h3 : s'.length / 2 > m
        · simp [unhexDyn, h1, h2, h3]
        · rcases hs : hexScan s' with bs | bs
          · simp [unhexDyn, h1, h2, h3, hs] at h
          · simp [unhexDyn, h1, h2, h3, hs] at h
            exact absurd h.symm he
  refine ⟨hdyn t s, ?_, ?_⟩
  · intro h
    by_cases h1 : starts0x s
    · simp [unhexFixed, h1]
    · by_cases h2 : s.length % 2 ≠ 0
      · simp [unhexFixed, h1, h2]
      · by_cases h3 : s.length / 2 < t.length
        · simp [unhexFixed, h1, h2, h3]
        · by_cases h4 : s.length / 2 > t.length
          · simp [unhexFixed, h1, h2, h3, h4]
          · rcases hs : hexScan s with bs | bs
            · simp [unhexFixed, h1, h2, h3, h4, hs] at h
            · simp [unhexFixed, h1, h2, h3, h4, hs] at h
              exact absurd h.symm he
  · intro h
    by_cases h1 : starts0x s
    · have h' : (unhexDyn t (s.drop 2) m).1 = .error e := by
        simpa [unhex0xDyn, h1] using h
      simpa [unhex0xDyn, h1] using hdyn t (s.drop 2) h'
    · by_cases h2 : b
      · have h' : (unhexDyn t s m).1 = .error e := by
          simpa [unhex0xDyn, h1, h2] using h
        simpa [unhex0xDyn, h1, h2] using hdyn t s h'
      · simp [unhex0xDyn, h1, h2]

/-- C2 witness: an odd-length input leaves a two-byte destination
untouched. -/
theorem C2_error_state_preserved_witness :
    (unhexDyn [1, 2] ['a'] MAX_UNHEX_SIZE).2 = [1, 2] :=
  (C2_error_state_preserved [1, 2] ['a'] MAX_UNHEX_SIZE false .ODD_LENGTH
    (by decide)).1 (by rfl)

theorem parseAfterX_shapes (p lo : Bool) (s : List Char) (o : HexFmt)
    (h : parseAfterX p lo s = some o) :
    s = [] ∨ (lo = true ∧ s = ['x']) ∨ (lo = false ∧ s = ['X']) := by
  cases s with
  | nil => exact Or.inl rfl
  | cons c2 rest2 =>
    simp only [parseAfterX] at h
    split_ifs at h with hc hr
    · rcases hc with ⟨h1, h2⟩ | ⟨h1, h2⟩
      · exact Or.inr (Or.inl ⟨h2, by rw [h1, hr]⟩)
      · exact Or.inr (Or.inr ⟨h2, by rw [h1, hr]⟩)

theorem parseAfter0_shapes (p : Bool) (s : List Char) (o : HexFmt)
    (h : parseAfter0 p s = some o) :
    s = [] ∨ s = ['x'] ∨ s = ['x', 'x'] ∨ s = ['X'] ∨ s = ['X', 'X'] := by
  cases s with
  | nil => exact Or.inl rfl
  | cons c rest =>
    simp only [parseAfter0] at h
    split_ifs at h with hx hX
    · subst hx
      rcases parseAfterX_shapes _ _ _ _ h with h' | ⟨_, h'⟩ | ⟨hlo, _⟩
      · subst h'; exact Or.inr (Or.inl rfl)
      · subst h'; exact Or.inr (Or.inr (Or.inl rfl))
      · exact absurd hlo (by simp)
    · subst hX
      rcases parseAfterX_shapes _ _ _ _ h with h' | ⟨hlo, _⟩ | ⟨_, h'⟩
      · subst h'; exact Or.inr (Or.inr (Or.inr (Or.inl rfl)))
      · exact absurd hlo (by simp)
      · subst h'; exact Or.inr (Or.inr (Or.inr (Or.inr rfl)))

theorem parseHexFmt_mem (s : List Char) (o : HexFmt)
    (h : parseHexFmt s = some o) : s ∈ hexFmtTokens := by
  cases s with
  | nil => simp [hexFmtTokens]
  | cons c rest =>
    simp only [parseHexFmt] at h
    split_ifs at h with hc
    · subst hc
      rcases parseAfter0_shapes _ _ _ h with h' | h' | h' | h' | h' <;>
        subst h' <;> simp [hexFmtTokens]
    · rcases parseAfter0_shapes _ _ _ h with h' | h' | h' | h' | h'
      · exact absurd h' (by simp)
      all_goals rw [h']; simp [hexFmtTokens]

/-- C8: the format-option parser maps the empty token to abbreviated
lowercase without prefix, `x`/`xx` to abbreviated/full lowercase,
`X`/`XX` to abbreviated/full uppercase, a leading `0` adding the `0x`
prefix to each; every other option token is rejected at
format-string-parse time (the renderer `formatHex` is total and never
raises). -/
theorem C8_format_option_table :
    parseHexFmt [] = some ⟨false, false, true⟩ ∧
    parseHexFmt ['x'] = some ⟨false, false, true⟩ ∧
    parseHexFmt ['x', 'x'] = some ⟨false, true, true⟩ ∧
    parseHexFmt ['X'] = some ⟨false, false, false⟩ ∧
    parseHexFmt ['X', 'X'] = some ⟨false, true, false⟩ ∧
    parseHexFmt ['0'] = some ⟨true, false, true⟩ ∧
    parseHexFmt ['0', 'x'] = some ⟨true, false, true⟩ ∧
    parseHexFmt ['0', 'x', 'x'] = some ⟨true, true, true⟩ ∧
    parseHexFmt ['0', 'X'] = some ⟨true, false, false⟩ ∧
    parseHexFmt ['0', 'X', 'X'] = some ⟨true, true, false⟩ ∧
    (∀ s : List Char, s ∉ hexFmtTokens → parseHexFmt s = none) := by
  refine ⟨by decide, by decide, by decide, by decide, by decide, by decide,
    by decide, by decide, by decide, by decide, ?_⟩
  intro s hs
  rcases hp : parseHexFmt s with _ | o
  · rfl
  · exact absurd (parseHexFmt_mem s o hp) hs

/-- C8 witness: a token outside the table, `"q"`, is rejected. -/
theorem C8_format_option_table_witness : parseHexFmt ['q'] = none :=
  C8_format_option_table.2.2.2.2.2.2.2.2.2.2 ['q'] (by decide)

/-- C9: with the default limit, decoding into a resizable destination
fails with the exceeds-maximum error exactly when the decoded byte count
exceeds `MAX_UNHEX_SIZE = 64*1024*1024`; at or below the bound the cap
check never fires (the destination list itself has no ceiling). -/
theorem C9_default_size_cap (t : List Nat) (s : List Char)
    (h1 : starts0x s = false) (h2 : s.length % 2 = 0) :
    (MAX_UNHEX_SIZE < s.length / 2 →
      (unhexDyn t s MAX_UNHEX_SIZE).1 = .error .FIXED_SIZE_TOO_LONG) ∧
    (s.length / 2 ≤ MAX_UNHEX_SIZE →
      (unhexDyn t s MAX_UNHEX_SIZE).1 ≠ .error .FIXED_SIZE_TOO_LONG) := by
  constructor <;> intro h
  · simp [unhexDyn, h1, h2, h]
  · have h3 : ¬ s.length / 2 > MAX_UNHEX_SIZE := by omega
    rcases hs : hexScan s with bs | bs <;>
      simp [unhexDyn, h1, h2, h3, hs]

/-- C9 witness: a two-character input decodes one byte, far below the cap,
and indeed does not hit the exceeds-maximum error. -/
theorem C9_default_size_cap_witness :
    (unhexDyn [] ['0', '0'] MAX_UNHEX_SIZE).1 ≠ .error .FIXED_SIZE_TOO_LONG :=
  (C9_default_size_cap [] ['0', '0'] (by decide) (by decide)).2 (by decide)

/-- C10: the validation checks of `unhex` are ordered — a "0x" prefix
yields `UNEXPECTED_0X` regardless of any other defect; otherwise odd
length yields `ODD_LENGTH` even if non-hex characters are present;
otherwise, for a fixed-size destination, a size mismatch is reported as
`TOO_SHORT`/`TOO_LONG` before any character is inspected. -/
theorem C10_validation_order (t : List Nat) (s : List Char) (m : Nat) :
    (starts0x s = true →
      (unhexDyn t s m).1 = .error .UNEXPECTED_0X ∧
      (unhexFixed t s).1 = .error .UNEXPECTED_0X) ∧
    (starts0x s = false → s.length % 2 = 1 →
      (unhexDyn t s m).1 = .error .ODD_LENGTH ∧
      (unhexFixed t s).1 = .error .ODD_LENGTH) ∧
    (starts0x s = false → s.length % 2 = 0 → s.length / 2 ≠ t.length →
      (unhexFixed t s).1 =
        .error (if s.length / 2 < t.length then .TOO_SHORT else .TOO_LONG)) := by
  refine ⟨?_, ?_, ?_⟩
  · intro h
    exact ⟨by simp [unhexDyn, h], by simp [unhexFixed, h]⟩
  · intro h1 h2
    have h2' : s.length % 2 ≠ 0 := by omega
    exact ⟨by simp [unhexDyn, h1, h2'], by simp [unhexFixed, h1, h2']⟩
  · intro h1 h2 h3
    by_cases h4 : s.length / 2 < t.length
    · simp [unhexFixed, h1, h2, h4]
    · have h5 : s.length / 2 > t.length := by omega
      simp [unhexFixed, h1, h2, h4, h5]

/-- C10 witness: `"0x??"` reports the prefix, `"zzz"` reports odd length,
and `"zz"` into a two-byte fixed destination reports `TOO_SHORT` — in
each case before the non-hex characters could matter. -/
theorem C10_validation_order_witness :
    (unhexFixed [7] ['0', 'x', 'z', 'z']).1 = .error .UNEXPECTED_0X ∧
    (unhexDyn [] ['z', 'z', 'z'] MAX_UNHEX_SIZE).1 = .error .ODD_LENGTH ∧
    (unhexFixed [7, 7] ['z', 'z']).1 = .error .TOO_SHORT := by
  refine ⟨?_, ?_, ?_⟩
  · exact ((C10_validation_order [7] ['0', 'x', 'z', 'z']
      MAX_UNHEX_SIZE).1 (by decide)).2
  · exact ((C10_validation_order [] ['z', 'z', 'z']
      MAX_UNHEX_SIZE).2.1 (by decide) (by decide)).1
  · exact (C10_validation_order [7, 7] ['z', 'z']
      MAX_UNHEX_SIZE).2.2 (by decide) (by decide) (by decide)

/-- C1: every operation of `SizeLimitedContainer` preserves the invariant
`length() <= MaxSize` when it completes normally, and every operation
that fails with the capacity error leaves the container's contents and
length exactly as they were.  `hst` is the invariant on the prior state;
the constructors have no prior state, so for them only the bound is
asserted.  `assignFrom` covers the copy/move/initializer-list assignments
and `assign` range overloads, `pushBack` also `emplace_back`, `insertOne`
also `emplace`, `resizeOp` both `resize` overloads. -/
theorem C1_invariant_and_atomic_failure {α : Type} (M : Nat)
    (st src : List α) (d v : α) (n pos : Nat) (hst : st.length ≤ M) :
    (∀ r, ctorSized M n d = .ok r → r.length ≤ M) ∧
    (∀ r, ctorSizedFill M n v = .ok r → r.length ≤ M) ∧
    (∀ r, ctorFrom M src = .ok r → r.length ≤ M) ∧
    opOk M st (assignFrom M st src) ∧
    opOk M st (assignSizeVal M st n v) ∧
    opOk M st (pushBack M st v) ∧
    opOk M st (emplaceBack M st v) ∧
    opOk M st (insertOne M st pos v) ∧
    opOk M st (emplaceAt M st pos v) ∧
    opOk M st (insertCount M st pos n v) ∧
    opOk M st (insertRange M st pos src) ∧
    opOk M st (reserveOp M st n) ∧
    opOk M st (resizeOp M st n v) := by
  refine ⟨?_, ?_, ?_, ?_, ?_, ?_, ?_, ?_, ?_, ?_, ?_, ?_, ?_⟩
  · intro r hr
    unfold ctorSized at hr
    split_ifs at hr with h
    simp only [Except.ok.injEq] at hr
    subst hr
    simp
    omega
  · intro r hr
    unfold ctorSizedFill at hr
    split_ifs at hr with h
    simp only [Except.ok.injEq] at hr
    subst hr
    simp
    omega
  · intro r hr
    unfold ctorFrom at hr
    split_ifs at hr with h
    simp only [Except.ok.injEq] at hr
    subst hr
    omega
  · constructor <;> unfold assignFrom <;> split_ifs with h <;> simp <;> omega
  · constructor <;> unfold assignSizeVal <;> split_ifs with h <;> simp <;> omega
  · constructor <;> unfold pushBack <;> split_ifs with h <;> simp <;> omega
  · constructor <;> unfold emplaceBack <;> split_ifs with h <;> simp <;> omega
  · constructor <;> unfold insertOne <;> split_ifs with h <;>
      simp [length_insertAt] <;> omega
  · constructor <;> unfold emplaceAt <;> split_ifs with h <;>
      simp [length_insertAt] <;> omega
  · constructor <;> unfold insertCount <;> split_ifs with h <;> simp <;> omega
  · constructor <;> unfold insertRange <;> split_ifs with h <;> simp <;> omega
  · constructor <;> unfold reserveOp <;> split_ifs with h <;> simp [hst]
  · constructor <;> unfold resizeOp <;> split_ifs with h <;> simp <;> omega

/-- C1 witness: with `MaxSize = 2` and prior contents `[1]`, a rejected
three-element assignment leaves `[1]` in place, and a successful
`push_back` stays within the bound. -/
theorem C1_invariant_and_atomic_failure_witness :
    (assignFrom 2 [1] [7, 8, 9]).2 = [1] ∧
      (pushBack 2 [1] (5 : Nat)).2.length ≤ 2 := by
  have h := C1_invariant_and_atomic_failure 2 [1] [7, 8, 9] 0 5 3 0 (by decide)
  exact ⟨h.2.2.2.1.1 (by rfl), h.2.2.2.2.2.1.2 (by rfl)⟩

/-- C7: `push_back`, `emplace_back`, `emplace` and single-element `insert`
on a container already holding `MaxSize` elements always fail with the
capacity error; below `MaxSize` they always succeed and grow the length
by exactly one. -/
theorem C7_single_element_growth {α : Type} (M : Nat) (st : List α)
    (v : α) (pos : Nat) :
    (st.length = M →
      (pushBack M st v).1 = .error .maxSizeExceeded ∧
      (emplaceBack M st v).1 = .error .maxSizeExceeded ∧
      (insertOne M st pos v).1 = .error .maxSizeExceeded ∧
      (emplaceAt M st pos v).1 = .error .maxSizeExceeded) ∧
    (st.length < M →
      (pushBack M st v).1 = .ok () ∧
      (pushBack M st v).2.length = st.length + 1 ∧
      (emplaceBack M st v).1 = .ok () ∧
      (emplaceBack M st v).2.length = st.length + 1 ∧
      (insertOne M st pos v).1 = .ok () ∧
      (insertOne M st pos v).2.length = st.length + 1 ∧
      (emplaceAt M st pos v).1 = .ok () ∧
      (emplaceAt M st pos v).2.length = st.length + 1) := by
  constructor <;> intro h
  · have hge : st.length ≥ M := by omega
    exact ⟨by simp [pushBack, hge], by simp [emplaceBack, hge],
      by simp [insertOne, hge], by simp [emplaceAt, hge]⟩
  · have hge : ¬ st.length ≥ M := by omega
    refine ⟨by simp [pushBack, hge], ?_, by simp [emplaceBack, hge], ?_,
      by simp [insertOne, hge], ?_, by simp [emplaceAt, hge], ?_⟩ <;>
      simp [pushBack, emplaceBack, insertOne, emplaceAt, hge, length_insertAt]

/-- C7 witness: with `MaxSize = 2`, `push_back` on `[1, 2]` is rejected
and `insert` on `[1]` grows the length to 2. -/
theorem C7_single_element_growth_witness :
    (pushBack 2 [1, 2] (9 : Nat)).1 = .error .maxSizeExceeded ∧
      (insertOne 2 [1] 0 (9 : Nat)).2.length = 2 := by
  exact ⟨((C7_single_element_growth 2 [1, 2] 9 0).1 (by decide)).1,
    ((C7_single_element_growth 2 [1] 9 0).2 (by decide)).2.2.2.2.2.1⟩

/-- C3 counterexample: decode is not a left inverse of full encode for
every byte sequence.  The empty sequence encodes (no prefix) to the
token `"<empty>"`, which fails to decode with `ODD_LENGTH`; and a
sequence one byte over `MAX_UNHEX_SIZE` encodes to text whose decode
fails with `FIXED_SIZE_TOO_LONG` under the decoder's default cap. -/
theorem C3_counterexample :
    (unhexDyn [] (formatHex ⟨false, true, true⟩ ([] : List Nat))
        MAX_UNHEX_SIZE).1 = .error .ODD_LENGTH ∧
    (unhexDyn []
        (formatHex ⟨false, true, true⟩ (List.replicate (MAX_UNHEX_SIZE + 1) 0))
        MAX_UNHEX_SIZE).1 = .error .FIXED_SIZE_TOO_LONG := by
  constructor
  · rfl
  · have hne : List.replicate (MAX_UNHEX_SIZE + 1) (0 : Nat) ≠ [] := by simp
    rw [formatHex_full_eq _ _ rfl rfl hne]
    have hrep : List.replicate (MAX_UNHEX_SIZE + 1) (0 : Nat) =
        0 :: List.replicate MAX_UNHEX_SIZE 0 := by
      simp [List.replicate_succ]
    have hstart :
        starts0x (writeBytes true (List.replicate (MAX_UNHEX_SIZE + 1) 0))
          = false := by
      rw [hrep]; exact starts0x_writeBytes true 0 _
    have hlen := writeBytes_length true (List.replicate (MAX_UNHEX_SIZE + 1) 0)
    rw [List.length_replicate] at hlen
    have hcount : (writeBytes true
        (List.replicate (MAX_UNHEX_SIZE + 1) 0)).length / 2
          = MAX_UNHEX_SIZE + 1 := by omega
    have hpar : (writeBytes true
        (List.replicate (MAX_UNHEX_SIZE + 1) 0)).length % 2 = 0 := by omega
    simp [unhexDyn, hstart, hpar, hcount]

/-- C3 (amended): for every nonempty byte sequence `B` whose length is at
most the decoder's default cap `MAX_UNHEX_SIZE`, decoding (with either
letter case) the full, non-abbreviated, unprefixed encoding of `B` into
an empty resizable destination succeeds and yields exactly `B`. -/
theorem C3_decode_left_inverse_of_encode (B : List Nat) (lo : Bool)
    (h1 : B ≠ []) (h2 : ∀ b ∈ B, b < 256) (h3 : B.length ≤ MAX_UNHEX_SIZE) :
    unhexDyn [] (formatHex ⟨false, true, lo⟩ B) MAX_UNHEX_SIZE =
      (.ok (), B) := by
  rw [formatHex_full_eq _ _ rfl rfl h1]
  obtain ⟨b, bs, rfl⟩ : ∃ b bs, B = b :: bs := by
    cases B with
    | nil => exact absurd rfl h1
    | cons b bs => exact ⟨b, bs, rfl⟩
  have hstart : starts0x (writeBytes lo (b :: bs)) = false :=
    starts0x_writeBytes lo b bs
  have hlen := writeBytes_length lo (b :: bs)
  have hpar : (writeBytes lo (b :: bs)).length % 2 = 0 := by omega
  have hcount : (writeBytes lo (b :: bs)).length / 2 = (b :: bs).length := by
    omega
  have hcap : ¬ (writeBytes lo (b :: bs)).length / 2 > MAX_UNHEX_SIZE := by
    omega
  have hscan := hexScan_writeBytes lo (b :: bs) h2
  simp only [unhexDyn, hstart, Bool.false_eq_true, if_false, hpar,
    ne_eq, not_true_eq_false, if_neg, hcount, hcap, ite_false, hscan]
  have hresize : resizeList [] (b :: bs).length =
      List.replicate (b :: bs).length 0 := by
    simp [resizeList]
  rw [hresize]
  simp [writeOver, List.drop_replicate]
  simpa using h3

/-- C3 witness: the one-byte sequence `[0x01]` round-trips through the
lowercase full encoding. -/
theorem C3_decode_left_inverse_of_encode_witness :
    unhexDyn [] (formatHex ⟨false, true, true⟩ [1]) MAX_UNHEX_SIZE =
      (.ok (), [1]) :=
  C3_decode_left_inverse_of_encode [1] true (by decide) (by decide) (by decide)

end Qtils
